import Mathlib

/-!
Verification of `scripts/gen_lang.py`, the build-time language-header
generator: it reads a target language's `language.json`, merges its
`strings` with the `en-US` base language, scans three directories for
`.ogg` sound files, and renders a fixed header template.

The Python script is shallowly embedded below.  Python `str` becomes
Lean `String`, Python `dict` (insertion-ordered, unique keys) becomes an
association list `List (String × String)` manipulated exactly as
`dict.copy()` / `dict.update()` do, directory listings become
`Option (List String)` (`none` = directory absent), and the two possible
states of a JSON file on disk (absent, unparsable) are made explicit.
-/

set_option maxRecDepth 200000
set_option maxHeartbeats 2000000

namespace GenLang

/-! ### Python string primitives -/

/-- Byte/code-point lexicographic `<=` on character lists, exactly the
order Python uses to compare `str` values (compare code points; a strict
prefix is smaller). -/
def charsLe : List Char → List Char → Bool
  | [], _ => true
  | _ :: _, [] => false
  | a :: as, b :: bs =>
    if a.toNat < b.toNat then true
    else if b.toNat < a.toNat then false
    else charsLe as bs

/-- Python's `<=` on strings. -/
def pyStrLe (a b : String) : Bool := charsLe a.data b.data

/-- `pyStrLe` as a relation, for use with `List.insertionSort`. -/
def pyLeProp (a b : String) : Prop := pyStrLe a b = true

instance : DecidableRel pyLeProp :=
  fun a b => inferInstanceAs (Decidable (pyStrLe a b = true))

/-- Python `sorted` on a list of strings: the sorted rearrangement of the
list under code-point lexicographic order. -/
def pySorted (l : List String) : List String := List.insertionSort pyLeProp l

/-- Python `sorted(set(xs))`: the sorted list of the distinct elements. -/
def pySortedSet (l : List String) : List String := pySorted l.dedup

/-- Python `str.upper` (the script only feeds it ASCII identifier keys
and file base names, on which `Char.toUpper` agrees with Python). -/
def pyUpper (s : String) : String := String.mk (s.data.map Char.toUpper)

/-- Python `str.lower`, same ASCII proviso as `pyUpper`. -/
def pyLower (s : String) : String := String.mk (s.data.map Char.toLower)

/-- The `"` character, written by code point. -/
def dquote : Char := Char.ofNat 34

/-- The `\` character, written by code point. -/
def backslash : Char := Char.ofNat 92

/-- Left-to-right scan replacing every occurrence of the character `pat`
by the character list `rep`. -/
def replaceCharAux (pat : Char) (rep : List Char) : List Char → List Char
  | [] => []
  | c :: cs =>
    if c = pat then rep ++ replaceCharAux pat rep cs
    else c :: replaceCharAux pat rep cs

/-- Python `s.replace(pat, rep)` for a single-character pattern. -/
def pyReplaceChar (s : String) (pat : Char) (rep : String) : String :=
  String.mk (replaceCharAux pat rep.data s.data)

/-- The quote-escaping `replace` call from line 105 of the script (pattern
a double quote, replacement a backslash and a double quote). -/
def pyEscape (v : String) : String :=
  pyReplaceChar v dquote (String.mk [backslash, dquote])

/-- Python `s.endswith(suffix)`, structurally: the reversed suffix is a
prefix of the reversed string. -/
def strEndsWith (s suffix : String) : Bool :=
  List.isPrefixOf suffix.data.reverse s.data.reverse

/-- Does the character list `hay` contain `needle` as a contiguous
sublist?  Used to talk about substring occurrence in emitted text. -/
def hasSub (hay needle : List Char) : Bool :=
  match hay with
  | [] => needle.isEmpty
  | _ :: rest => needle.isPrefixOf hay || hasSub rest needle

/-! ### Python `os.path` primitives (POSIX behaviour) -/

/-- Scan a reversed character list up to the first `/`; `none` when there
is no separator.  Helper for `pyDirname`. -/
def cutSlashRev : List Char → Option (List Char)
  | [] => none
  | c :: rest => if c = '/' then some rest else cutSlashRev rest

/-- `os.path.dirname` (POSIX): everything before the last `/`, with
trailing separators stripped unless the head is all separators. -/
def pyDirname (p : String) : String :=
  match cutSlashRev p.data.reverse with
  | none => ""
  | some revHead =>
    if revHead.all (fun c => c = '/') then
      String.mk (('/' :: revHead).reverse)
    else
      String.mk (revHead.dropWhile (fun c => c = '/')).reverse

/-- `os.path.basename` (POSIX): everything after the last `/`. -/
def pyBasename (p : String) : String :=
  String.mk (p.data.reverse.takeWhile (fun c => c ≠ '/')).reverse

/-- `os.path.join` (POSIX) for two components. -/
def pyJoin (a b : String) : String :=
  if b.data.head? = some '/' then b
  else if a.data = [] ∨ a.data.getLast? = some '/' then a ++ b
  else a ++ "/" ++ b

/-- Drop the reversed characters up to and including the first `.`;
`none` when there is no dot.  Helper for `pySplitextBase`. -/
def rstripToDot : List Char → Option (List Char)
  | [] => none
  | c :: rest => if c = '.' then some rest else rstripToDot rest

/-- The first component of `os.path.splitext(f)` for a bare filename:
strip the extension after the last dot, treating leading dots as part of
the name (so `".ogg"` has no extension). -/
def pySplitextBase (f : String) : String :=
  let cs := f.data
  let lead := (cs.takeWhile (fun c => c = '.')).length
  match rstripToDot (cs.drop lead).reverse with
  | some kept => String.mk (cs.take lead ++ kept.reverse)
  | none => f

/-! ### Python `dict` as an insertion-ordered association list -/

/-- `d[k]` lookup: value of the first entry whose key is `k`. -/
def pyGet (d : List (String × String)) (k : String) : Option String :=
  (d.find? (fun kv => kv.1 == k)).map (fun kv => kv.2)

/-- `d[k] = v`: replace the value in place when the key is present
(keeping its position), else append a fresh entry — exactly what CPython
dict assignment does. -/
def dictSet (d : List (String × String)) (k v : String) :
    List (String × String) :=
  if (d.find? (fun kv => kv.1 == k)).isSome then
    d.map (fun kv => if kv.1 == k then (kv.1, v) else kv)
  else d ++ [(k, v)]

/-- `d.update(u)`: assign each entry of `u` into `d` in order. -/
def dictUpdate (d u : List (String × String)) : List (String × String) :=
  u.foldl (fun acc kv => dictSet acc kv.1 kv.2) d

/-- Lines 85–86 of the script:
`merged_strings = base_strings.copy(); merged_strings.update(user_strings)`. -/
def mergedStrings (base user : List (String × String)) :
    List (String × String) :=
  dictUpdate base user

/-! ### The data model of the script's inputs -/

/-- The parsed shape of a `language.json` the script inspects: whether
the top-level object has a `language` key, and its `strings` field
(`none` when the key is missing). -/
structure LangJson where
  hasLanguage : Bool
  stringsField : Option (List (String × String))
deriving DecidableEq

/-- A JSON file on disk as the script can observe it: absent, present
but not valid JSON, or parsed. -/
inductive FileState where
  | absent
  | malformed
  | parsed (data : LangJson)
deriving DecidableEq

/-- The slice of the filesystem the script reads: the target language's
JSON, the `en-US` base JSON, and the raw listings of the `en-US` locale
directory, the target locale directory and the `common` directory
(`none` = directory does not exist). -/
structure FS where
  targetFile : FileState
  baseFile : FileState
  baseDir : Option (List String)
  currentDir : Option (List String)
  commonDir : Option (List String)

/-- Errors `generate_header` can raise. -/
inductive GenError where
  | fileNotFound (msg : String)
  | jsonDecodeError
  | valueError (msg : String)
deriving DecidableEq

/-! ### The script's functions -/

/-- `load_base_language` (lines 32–45): return the parsed base data on
success; on a missing or unparsable file print a warning and return
a dict whose `strings` key maps to an empty dict.  The `Bool` records whether the warning was printed. -/
def load_base_language : FileState → LangJson × Bool
  | FileState.absent => (⟨false, some []⟩, true)
  | FileState.malformed => (⟨false, some []⟩, true)
  | FileState.parsed d => (d, false)

/-- `get_sound_files` (lines 47–51): `[]` for a missing directory, else
the entries ending in `.ogg`. -/
def get_sound_files : Option (List String) → List String
  | none => []
  | some l => l.filter (fun f => strEndsWith f ".ogg")

/-- `lang_code.replace('-', '_').lower()`, the normalized language token
used for the font marker (line 166) and for `sound_lang` (line 140). -/
def langToken (lang_code : String) : String :=
  pyLower (pyReplaceChar lang_code '-' "_")

/-- Lines 139–142: the language attributed to a sound file — the
target's normalized code when the file is listed in the target's own
directory, else `"en_us"`. -/
def soundLang (lang_code file : String) (current_sounds : List String) :
    String :=
  if current_sounds.contains file then langToken lang_code else "en_us"

/-- The f-string of lines 144–150 (identical to the one at lines
155–161): the emitted text for one sound file, a function of the file's
base name only. -/
def soundEntryText (base_name : String) : String :=
  "\n        extern const char ogg_" ++ base_name
  ++ "_start[] asm(\"_binary_" ++ base_name
  ++ "_ogg_start\");\n        extern const char ogg_" ++ base_name
  ++ "_end[] asm(\"_binary_" ++ base_name
  ++ "_ogg_end\");\n        static const std::string_view OGG_"
  ++ pyUpper base_name
  ++ " \x7b\n        static_cast<const char*>(ogg_" ++ base_name
  ++ "_start),\n        static_cast<size_t>(ogg_" ++ base_name
  ++ "_end - ogg_" ++ base_name ++ "_start)\n        \x7d;"

/-- Lines 119–120 and 136–161: the `sounds` list as built — one entry
per file of `sorted(set(base_sounds) | set(current_sounds))`, then one
entry per file of `sorted(common_sounds)`.  The per-file `sound_lang`
of lines 139–142 is computed in the loop but the entry text never uses
it, which the `let _` makes explicit. -/
def soundsList (lang_code : String) (base current common : List String) :
    List String :=
  (pySortedSet (base ++ current)).map
      (fun file =>
        let _ := soundLang lang_code file current
        soundEntryText (pySplitextBase file))
    ++ (pySorted common).map (fun file => soundEntryText (pySplitextBase file))

/-- Line 106: one emitted string constant. -/
def stringLine (key value : String) : String :=
  "        constexpr const char* " ++ pyUpper key ++ " = \""
  ++ pyEscape value ++ "\";"

/-- Lines 102–106: the `strings` list — one line per entry of the merged
mapping, in iteration order. -/
def stringsLineList (m : List (String × String)) : List String :=
  m.map (fun kv => stringLine kv.1 kv.2)

/-- Line 167: `"\n".join(sorted(strings))`. -/
def stringsBlock (m : List (String × String)) : String :=
  String.intercalate "\n" (pySorted (stringsLineList m))

/-- Line 168: `"\n".join(sorted(sounds))`. -/
def soundsBlock (lang_code : String) (base current common : List String) :
    String :=
  String.intercalate "\n" (pySorted (soundsList lang_code base current common))

/-- `HEADER_TEMPLATE.format(...)` (lines 6–30 and 164–169), with the
brace escapes of the template resolved. -/
def headerContent (lang_code strings sounds : String) : String :=
  let f := langToken lang_code
  "// Auto-generated language config\n// Language: " ++ lang_code
  ++ " with en-US fallback\n#pragma once\n\n#include <string_view>\n\n#ifndef "
  ++ f ++ "\n    #define " ++ f
  ++ "  // Default language\n#endif\n\nnamespace Lang \x7b\n    // Language metadata\n    constexpr const char* CODE = \""
  ++ lang_code
  ++ "\";\n\n    // 字符串资源 (en-US as fallback for missing keys)\n    namespace Strings \x7b\n"
  ++ strings
  ++ "\n    \x7d\n\n    // 音效资源 (en-US as fallback for missing audio files)\n    namespace Sounds \x7b\n"
  ++ sounds
  ++ "\n    \x7d\n\x7d\n"

/-- The input path derived on lines 56–63:
joining the assets directory, `locales`, the language code and `language.json`, where
`assets_dir` is derived from the output path. -/
def derivedInputPath (lang_code output_path : String) : String :=
  let main_dir0 := pyDirname output_path
  let main_dir :=
    if pyBasename main_dir0 = "assets" then pyDirname main_dir0 else main_dir0
  let assets_dir := pyJoin main_dir "assets"
  pyJoin (pyJoin (pyJoin assets_dir "locales") lang_code) "language.json"

/-- `generate_header` (lines 53–174): the whole run, returning the text
written to the output file, or the raised error.  The write (lines
172–174) is the last step and happens only on success. -/
def generate_header (lang_code output_path : String) (fs : FS) :
    Except GenError String :=
  let input_path := derivedInputPath lang_code output_path
  match fs.targetFile with
  | FileState.absent =>
    Except.error (GenError.fileNotFound ("Language file not found: " ++ input_path))
  | FileState.malformed => Except.error GenError.jsonDecodeError
  | FileState.parsed data =>
    match data.hasLanguage, data.stringsField with
    | true, some user_strings =>
      let base_data := (load_base_language fs.baseFile).1
      let base_strings := base_data.stringsField.getD []
      let merged_strings := mergedStrings base_strings user_strings
      let base_sounds := get_sound_files fs.baseDir
      let current_sounds := get_sound_files fs.currentDir
      let common_sounds := get_sound_files fs.commonDir
      Except.ok (headerContent lang_code (stringsBlock merged_strings)
        (soundsBlock lang_code base_sounds current_sounds common_sounds))
    | _, _ => Except.error (GenError.valueError "Invalid JSON structure")

/-- The `__main__` wrapper (lines 176–187): exit status, and the file
contents written (`none` when the run failed before the write). -/
def mainRun (lang_code output_path : String) (fs : FS) : Nat × Option String :=
  match generate_header lang_code output_path fs with
  | Except.ok c => (0, some c)
  | Except.error _ => (1, none)

/-- Listings of possibly-missing directories matching up to order:
both absent, or both present with permuted entries. -/
def OptPerm : Option (List String) → Option (List String) → Prop
  | none, none => True
  | some a, some b => a.Perm b
  | _, _ => False

/-! ### Order properties of the Python string comparison -/

theorem charsLe_total : ∀ as bs, charsLe as bs = true ∨ charsLe bs as = true
  | [], _ => Or.inl rfl
  | _ :: _, [] => Or.inr rfl
  | a :: as, b :: bs => by
    simp only [charsLe]
    rcases Nat.lt_trichotomy a.toNat b.toNat with h | h | h
    · left; simp [h]
    · simp [h, Nat.lt_irrefl]
      exact charsLe_total as bs
    · right; simp [h]

theorem charsLe_trans :
    ∀ as bs cs, charsLe as bs = true → charsLe bs cs = true →
      charsLe as cs = true
  | [], _, _, _, _ => rfl
  | _ :: _, [], _, h, _ => by simp [charsLe] at h
  | _ :: _, _ :: _, [], _, h => by simp [charsLe] at h
  | a :: as, b :: bs, c :: cs, h1, h2 => by
    simp only [charsLe] at h1 h2 ⊢
    rcases Nat.lt_trichotomy a.toNat b.toNat with hab | hab | hab
    · rcases Nat.lt_trichotomy b.toNat c.toNat with hbc | hbc | hbc
      · simp [Nat.lt_trans hab hbc]
      · simp [hbc ▸ hab]
      · simp [Nat.lt_asymm hbc, hbc] at h2
    · rcases Nat.lt_trichotomy b.toNat c.toNat with hbc | hbc | hbc
      · simp [hab ▸ hbc]
      · have hac : a.toNat = c.toNat := hab.trans hbc
        simp [hab, Nat.lt_irrefl] at h1
        simp [hbc, Nat.lt_irrefl] at h2
        simp [hac, Nat.lt_irrefl]
        exact charsLe_trans as bs cs h1 h2
      · simp [Nat.lt_asymm hbc, hbc] at h2
    · simp [Nat.lt_asymm hab, hab] at h1

theorem charsLe_antisymm :
    ∀ as bs, charsLe as bs = true → charsLe bs as = true → as = bs
  | [], [], _, _ => rfl
  | [], _ :: _, _, h => by simp [charsLe] at h
  | _ :: _, [], h, _ => by simp [charsLe] at h
  | a :: as, b :: bs, h1, h2 => by
    simp only [charsLe] at h1 h2
    rcases Nat.lt_trichotomy a.toNat b.toNat with hab | hab | hab
    · simp [Nat.lt_asymm hab, hab] at h2
    · have hchar : a = b := Char.ext (UInt32.ext hab)
      simp [hab, Nat.lt_irrefl] at h1 h2
      rw [hchar, charsLe_antisymm as bs h1 h2]
    · simp [Nat.lt_asymm hab, hab] at h1

instance : IsTotal String pyLeProp :=
  ⟨fun a b => charsLe_total a.data b.data⟩

instance : IsTrans String pyLeProp :=
  ⟨fun a b c => charsLe_trans a.data b.data c.data⟩

instance : IsAntisymm String pyLeProp :=
  ⟨fun a b h1 h2 => by
    cases a; cases b
    exact congrArg String.mk (charsLe_antisymm _ _ h1 h2)⟩

/-- Sorting is invariant under rearrangement of the input. -/
theorem pySorted_eq_of_perm {l₁ l₂ : List String} (h : l₁.Perm l₂) :
    pySorted l₁ = pySorted l₂ :=
  List.eq_of_perm_of_sorted
    ((List.perm_insertionSort pyLeProp l₁).trans
      (h.trans (List.perm_insertionSort pyLeProp l₂).symm))
    (List.sorted_insertionSort pyLeProp l₁)
    (List.sorted_insertionSort pyLeProp l₂)

theorem pySorted_perm (l : List String) : (pySorted l).Perm l :=
  List.perm_insertionSort pyLeProp l

theorem pySorted_sorted (l : List String) : List.Sorted pyLeProp (pySorted l) :=
  List.sorted_insertionSort pyLeProp l

theorem pySortedSet_eq_of_perm {l₁ l₂ : List String} (h : l₁.Perm l₂) :
    pySortedSet l₁ = pySortedSet l₂ :=
  pySorted_eq_of_perm h.dedup

/-! ### String append facts -/

theorem str_data_append (a b : String) : (a ++ b).data = a.data ++ b.data := by
  cases a; cases b; rfl

theorem str_append_assoc (a b c : String) : a ++ b ++ c = a ++ (b ++ c) := by
  cases a; cases b; cases c
  exact congrArg String.mk (List.append_assoc _ _ _)

theorem str_empty_append (s : String) : "" ++ s = s := by
  cases s; rfl

/-! ### Lookup lemmas for the Python dict model -/

theorem pyGet_nil (k : String) : pyGet [] k = none := rfl

theorem pyGet_cons (kv : String × String) (d : List (String × String))
    (k : String) :
    pyGet (kv :: d) k = if kv.1 = k then some kv.2 else pyGet d k := by
  by_cases h : kv.1 = k
  · simp [pyGet, List.find?, h]
  · have hb : (kv.1 == k) = false := beq_eq_false_iff_ne.mpr h
    simp [pyGet, List.find?, hb, h]

theorem pyGet_append (d₁ d₂ : List (String × String)) (k : String) :
    pyGet (d₁ ++ d₂) k = (pyGet d₁ k).or (pyGet d₂ k) := by
  simp only [pyGet, List.find?_append]
  cases List.find? (fun kv => kv.1 == k) d₁ <;> simp

theorem pyGet_eq_none_of_not_mem {d : List (String × String)} {k : String}
    (h : k ∉ d.map Prod.fst) : pyGet d k = none := by
  induction d with
  | nil => rfl
  | cons kv rest ih =>
    simp only [List.map_cons, List.mem_cons] at h
    push_neg at h
    rw [pyGet_cons, if_neg (fun hk => h.1 hk.symm), ih h.2]

theorem pyGet_isSome_iff_find? (d : List (String × String)) (k : String) :
    (pyGet d k).isSome = (d.find? (fun kv => kv.1 == k)).isSome := by
  simp only [pyGet]
  cases d.find? (fun kv => kv.1 == k) <;> simp

theorem pyGet_map_set_ne {d : List (String × String)} {k k' v : String}
    (h : k' ≠ k) :
    pyGet (d.map (fun kv => if kv.1 == k then (kv.1, v) else kv)) k'
      = pyGet d k' := by
  induction d with
  | nil => rfl
  | cons kv rest ih =>
    by_cases hk : kv.1 = k
    · have hkk' : ¬ k = k' := fun hc => h hc.symm
      simp [List.map_cons, pyGet_cons, hk, hkk']
      simpa using ih
    · simp only [List.map_cons]
      rw [pyGet_cons, pyGet_cons]
      have hb : (kv.1 == k) = false := beq_eq_false_iff_ne.mpr hk
      simp only [hb, Bool.false_eq_true, if_false]
      split
      · rfl
      · exact ih

theorem pyGet_map_set_eq {d : List (String × String)} {k v : String}
    (hp : (pyGet d k).isSome) :
    pyGet (d.map (fun kv => if kv.1 == k then (kv.1, v) else kv)) k
      = some v := by
  induction d with
  | nil => simp [pyGet] at hp
  | cons kv rest ih =>
    by_cases hk : kv.1 = k
    · have hb : (kv.1 == k) = true := beq_iff_eq.mpr hk
      simp [List.map_cons, hb, pyGet_cons, hk]
    · have hb : (kv.1 == k) = false := beq_eq_false_iff_ne.mpr hk
      rw [pyGet_cons, if_neg hk] at hp
      simp only [List.map_cons, hb, Bool.false_eq_true, if_false]
      rw [pyGet_cons, if_neg hk]
      exact ih hp

/-- The effect of one Python dict assignment on lookups. -/
theorem pyGet_dictSet (d : List (String × String)) (k v k' : String) :
    pyGet (dictSet d k v) k' = if k' = k then some v else pyGet d k' := by
  unfold dictSet
  by_cases hp : (d.find? (fun kv => kv.1 == k)).isSome
  · rw [if_pos hp]
    by_cases hk : k' = k
    · subst hk
      rw [if_pos rfl]
      exact pyGet_map_set_eq (by rw [pyGet_isSome_iff_find?]; exact hp)
    · rw [if_neg hk, pyGet_map_set_ne hk]
  · rw [if_neg hp, pyGet_append]
    have hnone : pyGet d k = none := by
      cases hd : pyGet d k with
      | none => rfl
      | some w =>
        exact absurd (by rw [← pyGet_isSome_iff_find?, hd]; rfl) hp
    by_cases hk : k' = k
    · subst hk
      rw [hnone, if_pos rfl]
      simp [pyGet_cons]
    · rw [if_neg hk]
      have : pyGet [(k, v)] k' = none := by
        rw [pyGet_cons, if_neg (fun hc => hk hc.symm)]
        rfl
      rw [this]
      cases pyGet d k' <;> rfl

/-- Lookup in a Python `dict.update`: the updating mapping wins, the
updated one is the fallback.  The update source is a parsed JSON object,
so its keys are distinct. -/
theorem pyGet_dictUpdate :
    ∀ (u : List (String × String)), (u.map Prod.fst).Nodup →
      ∀ (d : List (String × String)) (k : String),
        pyGet (dictUpdate d u) k = (pyGet u k).or (pyGet d k)
  | [], _, d, k => by simp [dictUpdate, pyGet_nil]
  | kv :: u, hu, d, k => by
    simp only [List.map_cons, List.nodup_cons] at hu
    have step : dictUpdate d (kv :: u) = dictUpdate (dictSet d kv.1 kv.2) u := rfl
    rw [step, pyGet_dictUpdate u hu.2 (dictSet d kv.1 kv.2) k, pyGet_dictSet,
      pyGet_cons]
    by_cases hk : k = kv.1
    · have hnone : pyGet u k = none :=
        pyGet_eq_none_of_not_mem (hk ▸ hu.1)
      rw [hnone, if_pos hk, if_pos hk.symm]
      rfl
    · rw [if_neg hk, if_neg (fun hc => hk hc.symm)]

/-- Updating with key-disjoint entries is plain concatenation. -/
theorem dictUpdate_disjoint_append :
    ∀ (u : List (String × String)), (u.map Prod.fst).Nodup →
      ∀ (d : List (String × String)),
        (∀ kv ∈ u, pyGet d kv.1 = none) → dictUpdate d u = d ++ u
  | [], _, d, _ => by simp [dictUpdate]
  | kv :: u, hu, d, hd => by
    simp only [List.map_cons, List.nodup_cons] at hu
    have hset : dictSet d kv.1 kv.2 = d ++ [kv] := by
      unfold dictSet
      have hf : (d.find? (fun kv' => kv'.1 == kv.1)).isSome = false := by
        rw [← pyGet_isSome_iff_find?, hd kv (List.mem_cons_self kv u)]
        rfl
      rw [if_neg (by simp [hf])]
    have hrest : ∀ kv' ∈ u, pyGet (d ++ [kv]) kv'.1 = none := by
      intro kv' hkv'
      rw [pyGet_append, hd kv' (List.mem_cons_of_mem kv hkv')]
      have : pyGet [kv] kv'.1 = none := by
        rw [pyGet_cons, if_neg (fun hc => hu.1
          (by rw [hc]; exact List.mem_map_of_mem Prod.fst hkv'))]
        rfl
      rw [this]
      rfl
    calc dictUpdate d (kv :: u)
        = dictUpdate (dictSet d kv.1 kv.2) u := rfl
      _ = dictUpdate (d ++ [kv]) u := by rw [hset]
      _ = (d ++ [kv]) ++ u := dictUpdate_disjoint_append u hu.2 (d ++ [kv]) hrest
      _ = d ++ (kv :: u) := by simp

/-- Merging an empty base mapping returns the target mapping unchanged. -/
theorem mergedStrings_nil_base (T : List (String × String))
    (hT : (T.map Prod.fst).Nodup) : mergedStrings [] T = T := by
  have := dictUpdate_disjoint_append T hT [] (fun kv _ => rfl)
  simpa [mergedStrings] using this

/-! ### Escape function facts -/

theorem replaceCharAux_eq_flatMap (pat : Char) (rep : List Char) :
    ∀ l : List Char,
      replaceCharAux pat rep l
        = l.flatMap (fun c => if c = pat then rep else [c])
  | [] => rfl
  | c :: cs => by
    simp only [replaceCharAux, List.flatMap_cons,
      replaceCharAux_eq_flatMap pat rep cs]
    by_cases h : c = pat
    · rw [if_pos h, if_pos h]
    · rw [if_neg h, if_neg h]
      rfl

theorem pyEscape_data (s : String) :
    (pyEscape s).data
      = s.data.flatMap (fun c => if c = dquote then [backslash, dquote] else [c]) :=
  replaceCharAux_eq_flatMap dquote [backslash, dquote] s.data

theorem replaceCharAux_id_of_not_mem (pat : Char) (rep : List Char) :
    ∀ l : List Char, pat ∉ l → replaceCharAux pat rep l = l
  | [], _ => rfl
  | c :: cs, h => by
    simp only [List.mem_cons] at h
    push_neg at h
    have hcp : ¬ (c = pat) := fun hc => h.1 hc.symm
    simp only [replaceCharAux, if_neg hcp]
    rw [replaceCharAux_id_of_not_mem pat rep cs h.2]

theorem pyEscape_id_of_no_quote {s : String} (h : dquote ∉ s.data) :
    pyEscape s = s := by
  have : (pyEscape s).data = s.data :=
    replaceCharAux_id_of_not_mem dquote _ s.data h
  cases s
  exact congrArg String.mk this

theorem replaceCharAux_count (pat : Char) (rep : List Char) (c : Char)
    (hc : c ≠ pat) :
    ∀ l : List Char,
      (replaceCharAux pat rep l).count c
        = l.count c + l.count pat * rep.count c
  | [] => by simp [replaceCharAux]
  | d :: ds => by
    by_cases h : d = pat
    · have h1 : (d == c) = false :=
        beq_eq_false_iff_ne.mpr (fun hc' => hc (by rw [← hc']; exact h))
      have h2 : (d == pat) = true := beq_iff_eq.mpr h
      simp only [replaceCharAux, if_pos h, List.count_append,
        replaceCharAux_count pat rep c hc ds, List.count_cons, h1, h2]
      simp
      ring
    · have h2 : (d == pat) = false := beq_eq_false_iff_ne.mpr h
      simp only [replaceCharAux, List.count_cons, if_neg h,
        replaceCharAux_count pat rep c hc ds, h2]
      simp
      ring

/-- Escaping adds exactly one backslash per quote; the original
backslashes stay. -/
theorem pyEscape_count_backslash (s : String) :
    (pyEscape s).data.count backslash
      = s.data.count backslash + s.data.count dquote := by
  have hne : backslash ≠ dquote := by decide
  have := replaceCharAux_count dquote [backslash, dquote] backslash hne s.data
  simpa [pyEscape, pyReplaceChar, show ([backslash, dquote].count backslash) = 1 by decide]
    using this

/-! ### Substring occurrence -/

theorem hasSub_iff (needle : List Char) :
    ∀ hay : List Char,
      hasSub hay needle = true ↔ ∃ pre post, hay = pre ++ needle ++ post
  | [] => by
    constructor
    · intro h
      have : needle = [] := by
        cases needle with
        | nil => rfl
        | cons c cs => simp [hasSub, List.isEmpty] at h
      exact ⟨[], [], by simp [this]⟩
    · rintro ⟨pre, post, h⟩
      have := h.symm
      simp only [List.append_eq_nil] at this
      simp [hasSub, this.1.2, List.isEmpty]
  | c :: rest => by
    constructor
    · intro h
      rcases Bool.or_eq_true _ _ |>.mp h with hpre | hrec
      · obtain ⟨t, ht⟩ := List.isPrefixOf_iff_prefix.mp hpre
        exact ⟨[], t, by simp [← ht]⟩
      · obtain ⟨pre, post, hp⟩ := (hasSub_iff needle rest).mp hrec
        exact ⟨c :: pre, post, by simp [hp]⟩
    · rintro ⟨pre, post, h⟩
      cases pre with
      | nil =>
        have hpre : needle <+: c :: rest := ⟨post, by simpa using h.symm⟩
        simp [hasSub, List.isPrefixOf_iff_prefix.mpr hpre]
      | cons p pre' =>
        have hrest : rest = pre' ++ needle ++ post := by
          simpa using congrArg List.tail h
        simp [hasSub, (hasSub_iff needle rest).mpr ⟨pre', post, hrest⟩]

/-! ### Permutation invariance of the directory-derived data -/

theorem get_sound_files_perm {o₁ o₂ : Option (List String)}
    (h : OptPerm o₁ o₂) :
    (get_sound_files o₁).Perm (get_sound_files o₂) := by
  match o₁, o₂ with
  | none, none => exact List.Perm.refl _
  | some a, some b =>
    exact List.Perm.filter _ (h : a.Perm b)
  | none, some _ => exact absurd h (by simp [OptPerm])
  | some _, none => exact absurd h (by simp [OptPerm])

theorem soundsBlock_perm_congr (lang : String)
    {b₁ b₂ c₁ c₂ m₁ m₂ : List String}
    (hb : b₁.Perm b₂) (hc : c₁.Perm c₂) (hm : m₁.Perm m₂) :
    soundsBlock lang b₁ c₁ m₁ = soundsBlock lang b₂ c₂ m₂ := by
  unfold soundsBlock soundsList
  rw [pySortedSet_eq_of_perm (hb.append hc), pySorted_eq_of_perm hm]

/-! ### The claims -/

/-- C3: merging base strings `B` with target strings `T`
(`merged = B.copy(); merged.update(T)`, lines 83–86) keeps every key of
`B` and of `T` and no others, and at every key the target's value wins
while a base-only key keeps its base value. -/
theorem merge_is_fallback_overlay (B T : List (String × String))
    (hT : (T.map Prod.fst).Nodup) (k : String) :
    pyGet (mergedStrings B T) k
        = (if (pyGet T k).isSome then pyGet T k else pyGet B k)
    ∧ ((pyGet (mergedStrings B T) k).isSome
        ↔ ((pyGet B k).isSome ∨ (pyGet T k).isSome)) := by
  have h := pyGet_dictUpdate T hT B k
  constructor
  · rw [mergedStrings, h]
    cases pyGet T k <;> simp
  · rw [mergedStrings, h]
    cases pyGet T k <;> cases pyGet B k <;> simp

/-- C3 witness: the merge theorem applied to the spec's concrete
scenario (base has `greeting`, target `fr-FR` adds `farewell`). -/
theorem merge_is_fallback_overlay_witness :
    ((([("farewell", "Au revoir")] : List (String × String)).map Prod.fst).Nodup
      ∧ pyGet (mergedStrings [("greeting", "Hello")] [("farewell", "Au revoir")]) "greeting"
          = (if (pyGet [("farewell", "Au revoir")] "greeting").isSome
             then pyGet [("farewell", "Au revoir")] "greeting"
             else pyGet [("greeting", "Hello")] "greeting"))
    ∧ pyGet (mergedStrings [("greeting", "Hello")] [("farewell", "Au revoir")]) "greeting"
        = some "Hello" :=
  ⟨⟨by decide,
    (merge_is_fallback_overlay [("greeting", "Hello")] [("farewell", "Au revoir")]
      (by decide) "greeting").1⟩,
   by decide⟩

/-- C4: a missing target `language.json` makes `generate_header` raise
`FileNotFoundError` whose message contains `Language file not found`;
`__main__` turns that into exit status 1 and the output file is never
written. -/
theorem missing_target_aborts_without_write (lang out : String) (fs : FS)
    (h : fs.targetFile = FileState.absent) :
    generate_header lang out fs
        = Except.error (GenError.fileNotFound
            ("Language file not found: " ++ derivedInputPath lang out))
    ∧ (∃ pre post : String,
        "Language file not found: " ++ derivedInputPath lang out
          = pre ++ "Language file not found" ++ post)
    ∧ mainRun lang out fs = (1, none) := by
  have hgen : generate_header lang out fs
      = Except.error (GenError.fileNotFound
          ("Language file not found: " ++ derivedInputPath lang out)) := by
    unfold generate_header
    rw [h]
  refine ⟨hgen, ⟨"", ": " ++ derivedInputPath lang out, ?_⟩, ?_⟩
  · rw [str_empty_append, ← str_append_assoc]
    have h2 : ("Language file not found" : String) ++ ": "
        = "Language file not found: " := by decide
    rw [h2]
  · unfold mainRun
    rw [hgen]

/-- C4 witness: the abort theorem applied to a concrete filesystem with
the `zh-CN` file absent. -/
theorem missing_target_aborts_without_write_witness :
    (FS.mk FileState.absent FileState.absent none none none).targetFile
        = FileState.absent
    ∧ mainRun "zh-CN" "main/assets/lang_config.h"
        (FS.mk FileState.absent FileState.absent none none none) = (1, none) :=
  ⟨rfl,
   (missing_target_aborts_without_write "zh-CN" "main/assets/lang_config.h"
     (FS.mk FileState.absent FileState.absent none none none) rfl).2.2⟩

/-- C5: an absent or malformed base file makes `load_base_language`
return an empty string mapping with a warning, and the run then proceeds with
the merged strings equal to the target's own strings. -/
theorem base_failure_degrades_to_target_only (bf : FileState)
    (hbf : bf = FileState.absent ∨ bf = FileState.malformed)
    (T : List (String × String)) (hT : (T.map Prod.fst).Nodup)
    (lang out : String) (fs : FS)
    (hfs1 : fs.baseFile = bf)
    (hfs2 : fs.targetFile = FileState.parsed (LangJson.mk true (some T))) :
    load_base_language bf = (LangJson.mk false (some []), true)
    ∧ mergedStrings ((load_base_language bf).1.stringsField.getD []) T = T
    ∧ generate_header lang out fs
        = Except.ok (headerContent lang (stringsBlock T)
            (soundsBlock lang (get_sound_files fs.baseDir)
              (get_sound_files fs.currentDir) (get_sound_files fs.commonDir))) := by
  have hload : load_base_language bf = (LangJson.mk false (some []), true) := by
    rcases hbf with h | h <;> rw [h] <;> rfl
  have hmerge : mergedStrings ((load_base_language bf).1.stringsField.getD []) T = T := by
    rw [hload]
    simpa using mergedStrings_nil_base T hT
  refine ⟨hload, hmerge, ?_⟩
  unfold generate_header
  rw [hfs2]
  simp only [hfs1, hload]
  rw [show (LangJson.mk false (some ([] : List (String × String)))).stringsField.getD []
        = [] from rfl,
    mergedStrings_nil_base T hT]

/-- C5 witness: the degradation theorem applied to a concrete run with
the base file absent. -/
theorem base_failure_degrades_to_target_only_witness :
    mergedStrings
        ((load_base_language FileState.absent).1.stringsField.getD [])
        [("farewell", "Au revoir")]
      = [("farewell", "Au revoir")] :=
  (base_failure_degrades_to_target_only FileState.absent (Or.inl rfl)
    [("farewell", "Au revoir")] (by decide) "fr-FR" "main/assets/lang_config.h"
    (FS.mk (FileState.parsed (LangJson.mk true (some [("farewell", "Au revoir")])))
      FileState.absent none none none)
    rfl rfl).2.1

/-- C6: a parsed target object missing `language` or `strings` raises
`ValueError` (exit status 1); with both keys present no
structural-validation error is raised and the run succeeds. -/
theorem structure_validation (lang out : String) (fs : FS) (d : LangJson)
    (ht : fs.targetFile = FileState.parsed d) :
    ((d.hasLanguage = false ∨ d.stringsField = none) →
      generate_header lang out fs
          = Except.error (GenError.valueError "Invalid JSON structure")
      ∧ mainRun lang out fs = (1, none))
    ∧ (∀ s, d.hasLanguage = true → d.stringsField = some s →
        ∃ c, generate_header lang out fs = Except.ok c) := by
  obtain ⟨hasLang, sf⟩ := d
  constructor
  · intro hbad
    have hgen : generate_header lang out fs
        = Except.error (GenError.valueError "Invalid JSON structure") := by
      unfold generate_header
      rw [ht]
      rcases hbad with h | h
      · have h' : hasLang = false := h
        subst h'
        rfl
      · have h' : sf = none := h
        subst h'
        cases hasLang <;> rfl
    exact ⟨hgen, by unfold mainRun; rw [hgen]⟩
  · intro s hl hs
    have h1 : hasLang = true := hl
    have h2 : sf = some s := hs
    subst h1
    subst h2
    exact ⟨_, by unfold generate_header; rw [ht]⟩

/-- C6 witness: the validation theorem applied to a parsed target that
lacks both required keys. -/
theorem structure_validation_witness :
    mainRun "fr-FR" "main/assets/lang_config.h"
        (FS.mk (FileState.parsed (LangJson.mk false none)) FileState.absent
          none none none)
      = (1, none) :=
  ((structure_validation "fr-FR" "main/assets/lang_config.h"
      (FS.mk (FileState.parsed (LangJson.mk false none)) FileState.absent
        none none none)
      (LangJson.mk false none) rfl).1 (Or.inl rfl)).2

/-- C7: the generator is deterministic — two runs with the same language
code, output path, JSON file states and the same directory entry sets
(in any listing order) produce identical output. -/
theorem generator_deterministic (lang out : String) (fs₁ fs₂ : FS)
    (ht : fs₁.targetFile = fs₂.targetFile)
    (hb : fs₁.baseFile = fs₂.baseFile)
    (h1 : OptPerm fs₁.baseDir fs₂.baseDir)
    (h2 : OptPerm fs₁.currentDir fs₂.currentDir)
    (h3 : OptPerm fs₁.commonDir fs₂.commonDir) :
    generate_header lang out fs₁ = generate_header lang out fs₂ := by
  have hsb : soundsBlock lang (get_sound_files fs₁.baseDir)
        (get_sound_files fs₁.currentDir) (get_sound_files fs₁.commonDir)
      = soundsBlock lang (get_sound_files fs₂.baseDir)
        (get_sound_files fs₂.currentDir) (get_sound_files fs₂.commonDir) :=
    soundsBlock_perm_congr lang (get_sound_files_perm h1)
      (get_sound_files_perm h2) (get_sound_files_perm h3)
  unfold generate_header
  rw [ht, hb]
  cases htf : fs₂.targetFile with
  | absent => rfl
  | malformed => rfl
  | parsed data =>
    obtain ⟨hasLang, sf⟩ := data
    cases hasLang <;> cases sf <;> simp only [hsb]

/-- C7 witness: determinism applied to two concrete filesystems whose
base-directory listings are permutations of one another. -/
theorem generator_deterministic_witness :
    OptPerm (some ["b.ogg", "a.ogg"]) (some ["a.ogg", "b.ogg"])
    ∧ generate_header "fr-FR" "main/assets/lang_config.h"
        (FS.mk (FileState.parsed (LangJson.mk true (some [])))
          FileState.absent (some ["b.ogg", "a.ogg"]) (some []) (some []))
      = generate_header "fr-FR" "main/assets/lang_config.h"
        (FS.mk (FileState.parsed (LangJson.mk true (some [])))
          FileState.absent (some ["a.ogg", "b.ogg"]) (some []) (some [])) :=
  ⟨(by decide : (["b.ogg", "a.ogg"] : List String).Perm ["a.ogg", "b.ogg"]),
   generator_deterministic "fr-FR" "main/assets/lang_config.h" _ _ rfl rfl
     (by decide : (["b.ogg", "a.ogg"] : List String).Perm ["a.ogg", "b.ogg"])
     (by decide : (([] : List String)).Perm [])
     (by decide : (([] : List String)).Perm [])⟩

/-- C1: at the failing input (language `zh-CN`, file `welcome.ogg`
present in the target's own directory) the selection variable
`sound_lang` of lines 139–142 evaluates to `zh_cn`, yet the emitted blob
symbol is `_binary_welcome_ogg_start` and `zh_cn` occurs nowhere in the
emitted entry; attributing the file to the target or to the base
produces identical output. -/
theorem sound_symbol_lacks_language_token :
    soundLang "zh-CN" "welcome.ogg" ["welcome.ogg"] = "zh_cn"
    ∧ ¬ (∃ pre post : List Char,
          (soundEntryText (pySplitextBase "welcome.ogg")).data
            = pre ++ "zh_cn".data ++ post)
    ∧ (∃ pre post : List Char,
          (soundEntryText (pySplitextBase "welcome.ogg")).data
            = pre ++ "_binary_welcome_ogg_start".data ++ post)
    ∧ soundsList "zh-CN" ["welcome.ogg"] [] []
        = soundsList "zh-CN" [] ["welcome.ogg"] [] := by
  refine ⟨by decide, ?_, ?_, by decide⟩
  · intro hex
    have h := (hasSub_iff "zh_cn".data
      (soundEntryText (pySplitextBase "welcome.ogg")).data).mpr hex
    rw [show hasSub (soundEntryText (pySplitextBase "welcome.ogg")).data
          "zh_cn".data = false from by decide] at h
    exact Bool.false_ne_true h
  · exact (hasSub_iff _ _).mp (by decide)

/-- C2 counterexample: with no base sounds, `b.ogg` in the target's
directory and `a.ogg` in the common directory, the `sounds` list is
built as the two blocks `[entry b, entry a]`, but the emitted block re-sorts
them, so the common entry for `a` precedes the language-bound entry for
`b` — refuting "no common entry precedes any language-bound entry". -/
theorem sound_blocks_counterexample :
    soundsList "fr-FR" [] ["b.ogg"] ["a.ogg"]
        = [soundEntryText "b", soundEntryText "a"]
    ∧ soundsBlock "fr-FR" [] ["b.ogg"] ["a.ogg"]
        = soundEntryText "a" ++ "\n" ++ soundEntryText "b"
    ∧ soundEntryText "a" ≠ soundEntryText "b" :=
  ⟨by decide, by decide, by decide⟩

/-- C2 amended: the language-bound union entries and the common entries
are emitted as one combined block, sorted lexicographically by entry
text (line 168 sorts the concatenation of the two groups), so the two
groups interleave instead of appearing consecutively. -/
theorem sound_entries_single_sorted_block (lang : String)
    (base current common : List String) :
    (pySorted (soundsList lang base current common)).Perm
        (soundsList lang base current common)
    ∧ List.Sorted pyLeProp (pySorted (soundsList lang base current common))
    ∧ soundsBlock lang base current common
        = String.intercalate "\n" (pySorted (soundsList lang base current common)) :=
  ⟨pySorted_perm _, pySorted_sorted _, rfl⟩

/-- C8: each emitted string constant uses the upper-cased key as its
identifier and the value with every `"` replaced by `\"`; in particular
`She said "hi"` is emitted as `She said \"hi\"`. -/
theorem string_constant_shape :
    (∀ k v : String, stringLine k v
        = "        constexpr const char* " ++ pyUpper k ++ " = \""
          ++ pyEscape v ++ "\";")
    ∧ (∀ v : String, (pyEscape v).data
        = v.data.flatMap (fun c => if c = dquote then [backslash, dquote] else [c]))
    ∧ pyEscape "She said \"hi\"" = "She said \\\"hi\\\"" :=
  ⟨fun _ _ => rfl, pyEscape_data, by decide⟩

/-- C9 counterexample: the distinct merged keys `hello` and `HELLO` both
upper-case to `HELLO`, and the emitted block contains the identifier
`HELLO` twice — once per key, the earlier key's value `x` included — not
exactly once with the later value. -/
theorem identifier_collision_counterexample :
    mergedStrings [("hello", "x")] [("HELLO", "y")]
        = [("hello", "x"), ("HELLO", "y")]
    ∧ pyUpper "hello" = pyUpper "HELLO"
    ∧ stringsBlock (mergedStrings [("hello", "x")] [("HELLO", "y")])
        = "        constexpr const char* HELLO = \"x\";\n        constexpr const char* HELLO = \"y\";" :=
  ⟨by decide, by decide, by decide⟩

/-- C9 amended: the generator emits one constant line per key of the
merged mapping and the final sort only rearranges them, so distinct keys
sharing an upper-cased identifier yield multiple lines with that
identifier (duplicate definitions, each with its own key's value), not a
single last-write-wins occurrence. -/
theorem identifier_collision_keeps_all_lines (m : List (String × String)) :
    (stringsLineList m).length = m.length
    ∧ (pySorted (stringsLineList m)).Perm (stringsLineList m)
    ∧ (∀ kv ∈ m, stringLine kv.1 kv.2 ∈ pySorted (stringsLineList m)) := by
  refine ⟨List.length_map m _, pySorted_perm _, ?_⟩
  intro kv hkv
  exact ((pySorted_perm _).mem_iff).mpr (List.mem_map_of_mem _ hkv)

/-- C9 amended witness: the per-key emission applied to a concrete
one-entry mapping. -/
theorem identifier_collision_keeps_all_lines_witness :
    ("k", "v") ∈ ([("k", "v")] : List (String × String))
    ∧ stringLine "k" "v" ∈ pySorted (stringsLineList [("k", "v")]) :=
  ⟨by decide,
   (identifier_collision_keeps_all_lines [("k", "v")]).2.2 ("k", "v") (by decide)⟩

/-- C10: the escape step touches only double quotes — a string without a
quote is emitted unchanged, and the backslash count of the output is the
input's backslash count plus one per quote, so original backslashes pass
through verbatim. -/
theorem escape_touches_only_quotes :
    (∀ s : String, dquote ∉ s.data → pyEscape s = s)
    ∧ (∀ s : String, (pyEscape s).data.count backslash
        = s.data.count backslash + s.data.count dquote) :=
  ⟨fun _ h => pyEscape_id_of_no_quote h, pyEscape_count_backslash⟩

/-- C10 witness: a value containing a backslash and no quote is emitted
verbatim. -/
theorem escape_touches_only_quotes_witness :
    dquote ∉ ("path\\to" : String).data ∧ pyEscape "path\\to" = "path\\to" :=
  ⟨by decide, escape_touches_only_quotes.1 "path\\to" (by decide)⟩

end GenLang
